import Mathlib

/-!
# Verification of the tansu record codec and broker dispatch loop

A shallow embedding of the tansu Kafka-compatible broker's record codec
(`tansu-kafka-sans-io/src/record.rs` and the primitive codecs it relies on)
and of the per-connection dispatch loop (`tansu-server/src/broker.rs`).

Bytes are modelled as `Nat` (values < 256), byte buffers as `List Nat`,
machine integers as `Int` with explicit two's-complement reduction where
the wire format demands it.
-/

namespace Tansu

/-! ## Primitive codec

Modelled from the spec: the primitive codec (`primitive/varint.rs`,
`record/codec.rs`) is not under `src/`.  The spec describes signed
zig-zag varints (`(n << 1) XOR (n >> 63)`, then base-128 groups
LSB-first with a continuation bit), fixed-width big-endian integers,
and byte sequences carried behind a signed varint length prefix where
`-1` denotes absence. -/

/-- Base-128 LSB-first encoding of an unsigned value, continuation bit set
on every group but the last; the first argument is recursion fuel, which
`encodeUVarint` always supplies in sufficient quantity. -/
def encodeUVarintGo : Nat → Nat → List Nat
  | 0, n => [n]
  | fuel + 1, n => if n < 128 then [n] else (n % 128 + 128) :: encodeUVarintGo fuel (n / 128)

/-- Base-128 LSB-first encoding of an unsigned value. -/
def encodeUVarint (n : Nat) : List Nat := encodeUVarintGo n n

/-- Decode a base-128 LSB-first unsigned value, returning the value and the
remaining input. -/
def decodeUVarint : List Nat → Option (Nat × List Nat)
  | [] => none
  | b :: rest =>
    if b < 128 then some (b, rest)
    else (decodeUVarint rest).map (fun p => (b % 128 + 128 * p.1, p.2))

/-- Group count of the base-128 encoding, fuelled like `encodeUVarintGo`. -/
def varintGroupsGo : Nat → Nat → Nat
  | 0, _ => 1
  | fuel + 1, n => if n < 128 then 1 else 1 + varintGroupsGo fuel (n / 128)

/-- Number of base-128 groups needed for an unsigned value: the
`size_in_bytes` of a varint. -/
def varintGroups (n : Nat) : Nat := varintGroupsGo n n

/-- Zig-zag mapping of a signed value to an unsigned one:
`(n << 1) XOR (n >> w-1)` in two's complement. -/
def zigzag (n : Int) : Nat :=
  if n ≥ 0 then 2 * n.toNat else 2 * (-n).toNat - 1

/-- Inverse of the zig-zag mapping. -/
def unzigzag (u : Nat) : Int :=
  if u % 2 = 0 then (u / 2 : Nat) else -((u / 2 : Nat) : Int) - 1

/-- Signed 32-bit varint encoding (zig-zag then base-128). -/
def encodeVarint32 (n : Int) : List Nat := encodeUVarint (zigzag n)

/-- Signed 64-bit varint encoding (zig-zag then base-128). -/
def encodeVarint64 (n : Int) : List Nat := encodeUVarint (zigzag n)

/-- Decode a signed 32-bit varint; out-of-range values are malformed input. -/
def decodeVarint32 (bs : List Nat) : Option (Int × List Nat) :=
  (decodeUVarint bs).bind fun p =>
    if p.1 < 2 ^ 32 then some (unzigzag p.1, p.2) else none

/-- Decode a signed 64-bit varint; out-of-range values are malformed input. -/
def decodeVarint64 (bs : List Nat) : Option (Int × List Nat) :=
  (decodeUVarint bs).bind fun p =>
    if p.1 < 2 ^ 64 then some (unzigzag p.1, p.2) else none

/-- `size_in_bytes` of a signed 32-bit varint. -/
def varint32Size (n : Int) : Nat := varintGroups (zigzag n)

/-- `size_in_bytes` of a signed 64-bit varint. -/
def varint64Size (n : Int) : Nat := varintGroups (zigzag n)

/-- `w`-byte big-endian encoding of an unsigned value (< 2^(8w)). -/
def toBE : Nat → Nat → List Nat
  | 0, _ => []
  | w + 1, n => toBE w (n / 256) ++ [n % 256]

/-- Fold `w` big-endian bytes back into an unsigned value. -/
def fromBE (bs : List Nat) : Nat := bs.foldl (fun acc b => acc * 256 + b) 0

/-- Fixed-width big-endian encoding of a signed value, two's complement. -/
def encodeIntBE (w : Nat) (v : Int) : List Nat := toBE w ((v % (2 ^ (8 * w) : Nat)).toNat)

/-- Decode a fixed-width big-endian signed value, two's complement. -/
def decodeIntBE (w : Nat) (bs : List Nat) : Option (Int × List Nat) :=
  if w ≤ bs.length then
    let u := fromBE (bs.take w)
    some (if u < 2 ^ (8 * w - 1) then (u : Int) else (u : Int) - (2 ^ (8 * w) : Nat), bs.drop w)
  else none

/-- Nullable byte sequence behind a signed varint length; `-1` denotes null. -/
def encodeOctets : Option (List Nat) → List Nat
  | none => encodeVarint32 (-1)
  | some bs => encodeVarint32 bs.length ++ bs

/-- `size_in_bytes` of a nullable byte sequence. -/
def octetsSize : Option (List Nat) → Nat
  | none => varint32Size (-1)
  | some bs => varint32Size bs.length + bs.length

/-- Decode a nullable byte sequence: varint length, `-1` meaning null. -/
def decodeOctets (bs : List Nat) : Option (Option (List Nat) × List Nat) :=
  (decodeVarint32 bs).bind fun p =>
    if p.1 = -1 then some (none, p.2)
    else if 0 ≤ p.1 then
      if p.1.toNat ≤ p.2.length then some (some (p.2.take p.1.toNat), p.2.drop p.1.toNat)
      else none
    else none

/-! ## Record codec

The `Record` structure and its `Builder` mirror
`tansu-kafka-sans-io/src/record.rs`.  The wire forms of the individual
fields (`VarInt`, `LongVarInt`, `Octets`, `VarIntSequence`) are modelled
from the spec since `record/codec.rs` and `record/header.rs` are not
under `src/`. -/

/-- Modelled from the spec: a record header (`record/header.rs` is not under
`src/`) is a key/value pair, both behind a signed zig-zag varint length
prefix where `-1` denotes absence. -/
structure Header where
  key : Option (List Nat)
  value : Option (List Nat)
deriving DecidableEq, Repr

/-- Wire form of a header: octets for the key, octets for the value. -/
def encodeHeader (h : Header) : List Nat :=
  encodeOctets h.key ++ encodeOctets h.value

/-- `size_in_bytes` of a header. -/
def headerSize (h : Header) : Nat := octetsSize h.key + octetsSize h.value

/-- Decode one header: key octets then value octets. -/
def decodeHeader (bs : List Nat) : Option (Header × List Nat) :=
  (decodeOctets bs).bind fun pk =>
    (decodeOctets pk.2).map fun pv => (⟨pk.1, pv.1⟩, pv.2)

/-- Modelled from the spec: a `VarIntSequence` carries a signed varint
element count followed by the encoded elements. -/
def encodeHeaders (hs : List Header) : List Nat :=
  encodeVarint32 hs.length ++ (hs.map encodeHeader).flatten

/-- `size_in_bytes` of a header sequence. -/
def headersSize (hs : List Header) : Nat :=
  varint32Size hs.length + (hs.map headerSize).sum

/-- Decode `k` consecutive headers. -/
def decodeHeadersN : Nat → List Nat → Option (List Header × List Nat)
  | 0, bs => some ([], bs)
  | k + 1, bs =>
    (decodeHeader bs).bind fun ph =>
      (decodeHeadersN k ph.2).map fun pt => (ph.1 :: pt.1, pt.2)

/-- Decode a varint-counted header sequence. -/
def decodeHeaders (bs : List Nat) : Option (List Header × List Nat) :=
  (decodeVarint32 bs).bind fun pc =>
    if 0 ≤ pc.1 then decodeHeadersN pc.1.toNat pc.2 else none

/-- A single log entry inside a batch (`record.rs`, `struct Record`). -/
structure Record where
  length : Int
  attributes : Nat
  timestamp_delta : Int
  offset_delta : Int
  key : Option (List Nat)
  value : Option (List Nat)
  headers : List Header
deriving DecidableEq, Repr

/-- A record whose key is present and value absent is a tombstone
(`Record::is_tombstone`). -/
def Record.is_tombstone (r : Record) : Bool :=
  r.key.isSome && r.value.isNone

/-- The encoded tail of a record: every field after the `length` varint, in
the order `Builder::serialize` emits them (`record.rs` lines 126-148). -/
def recordTail (r : Record) : List Nat :=
  [r.attributes] ++ encodeVarint64 r.timestamp_delta ++ encodeVarint32 r.offset_delta
    ++ encodeOctets r.key ++ encodeOctets r.value ++ encodeHeaders r.headers

/-- Full wire form of a record: signed varint `length` then the tail. -/
def encodeRecord (r : Record) : List Nat :=
  encodeVarint32 r.length ++ recordTail r

/-- Decode the fields of a record tail: the attributes byte, then the
remaining fields.  An empty tail is malformed. -/
def decodeRecordTail (len : Int) : List Nat → Option Record
  | [] => none
  | attrs :: bs =>
    (decodeVarint64 bs).bind fun pts =>
      (decodeVarint32 pts.2).bind fun pod =>
        (decodeOctets pod.2).bind fun pk =>
          (decodeOctets pk.2).bind fun pv =>
            (decodeHeaders pv.2).bind fun ph =>
              if ph.2 = [] then
                some ⟨len, attrs, pts.1, pod.1, pk.1, pv.1, ph.1⟩
              else none

/-- Decode one record: read the varint `length`, consume exactly that many
bytes for the tail (a tail that over- or under-runs is malformed). -/
def decodeRecord (bs : List Nat) : Option (Record × List Nat) :=
  (decodeVarint32 bs).bind fun pl =>
    if 0 ≤ pl.1 ∧ pl.1.toNat ≤ pl.2.length then
      (decodeRecordTail pl.1 (pl.2.take pl.1.toNat)).map fun r =>
        (r, pl.2.drop pl.1.toNat)
    else none

/-- `Builder` for a record (`record.rs`, `struct Builder`): the same fields
as `Record` except `length`, which `build` computes. -/
structure Builder where
  attributes : Nat
  timestamp_delta : Int
  offset_delta : Int
  key : Option (List Nat)
  value : Option (List Nat)
  headers : List Header
deriving DecidableEq, Repr

/-- The default record builder (`Builder::default()`). -/
def Builder.default : Builder := ⟨0, 0, 0, none, none, []⟩

/-- `Builder::value` (`record.rs` line 187). -/
def Builder.withValue (b : Builder) (v : List Nat) : Builder := { b with value := some v }

/-- `Builder::key` (`record.rs` line 181). -/
def Builder.withKey (b : Builder) (k : List Nat) : Builder := { b with key := some k }

/-- `Builder::offset_delta` (`record.rs` line 175). -/
def Builder.withOffsetDelta (b : Builder) (d : Int) : Builder := { b with offset_delta := d }

/-- `ByteSize for Builder` (`record.rs` lines 150-159): one byte for the
attributes plus the sizes of the remaining fields. -/
def Builder.size_in_bytes (b : Builder) : Nat :=
  1 + varint64Size b.timestamp_delta + varint32Size b.offset_delta
    + octetsSize b.key + octetsSize b.value + headersSize b.headers

/-- `Record::try_from(Builder)` (`record.rs` lines 85-101): the `length`
field is the builder's `size_in_bytes`, which must fit an `i32`. -/
def Builder.build (b : Builder) : Option Record :=
  if b.size_in_bytes < 2 ^ 31 then
    some ⟨b.size_in_bytes, b.attributes, b.timestamp_delta, b.offset_delta,
          b.key, b.value, b.headers⟩
  else none

/-- `Builder::from(Record)` (`record.rs` lines 103-114): every field except
`length` is carried over. -/
def Builder.ofRecord (r : Record) : Builder :=
  ⟨r.attributes, r.timestamp_delta, r.offset_delta, r.key, r.value, r.headers⟩

/-! ## Batch codec

Modelled from the spec: `record/batch.rs` is not under `src/`.  The spec
fixes the wire order of the prefix fields, states that `crc` is CRC-32C
(Castagnoli) over every byte from `attributes` through the final record
byte, and that `batch_length` is the encoded length minus 12. -/

/-- One round of the bit-reflected CRC-32C: shift right, conditionally xor
with the reversed Castagnoli polynomial `0x82F63B78`. -/
def crcRound (c : Nat) : Nat := (c / 2) ^^^ (0x82F63B78 * (c % 2))

/-- Eight CRC rounds fold one byte into the running remainder. -/
def crcByte (c b : Nat) : Nat :=
  crcRound (crcRound (crcRound (crcRound (crcRound (crcRound (crcRound (crcRound (c ^^^ b))))))))

/-- CRC-32C (Castagnoli polynomial, reflected, init and xorout
`0xFFFFFFFF`) over a byte sequence. -/
def crc32c (bs : List Nat) : Nat :=
  (bs.foldl crcByte 0xFFFFFFFF) ^^^ 0xFFFFFFFF

/-- A record batch (frame v2), fields in wire order. -/
structure Batch where
  base_offset : Int
  batch_length : Int
  partition_leader_epoch : Int
  magic : Int
  crc : Nat
  attributes : Int
  last_offset_delta : Int
  base_timestamp : Int
  max_timestamp : Int
  producer_id : Int
  producer_epoch : Int
  base_sequence : Int
  records : List Record
deriving DecidableEq, Repr

/-- The CRC-protected byte range of a batch: every field from `attributes`
through the final record byte; the record count is a plain big-endian i32. -/
def batchCrcRange (b : Batch) : List Nat :=
  encodeIntBE 2 b.attributes ++ encodeIntBE 4 b.last_offset_delta
    ++ encodeIntBE 8 b.base_timestamp ++ encodeIntBE 8 b.max_timestamp
    ++ encodeIntBE 8 b.producer_id ++ encodeIntBE 2 b.producer_epoch
    ++ encodeIntBE 4 b.base_sequence ++ encodeIntBE 4 b.records.length
    ++ (b.records.map encodeRecord).flatten

/-- Full wire form of a batch. -/
def encodeBatch (b : Batch) : List Nat :=
  encodeIntBE 8 b.base_offset ++ encodeIntBE 4 b.batch_length
    ++ encodeIntBE 4 b.partition_leader_epoch ++ encodeIntBE 1 b.magic
    ++ toBE 4 b.crc ++ batchCrcRange b

/-- Modelled from the spec: inputs of the batch builder
(`Batch::builder()` in `record/batch.rs`): the prefix fields plus a list
of record builders. -/
structure BatchBuilder where
  base_offset : Int
  partition_leader_epoch : Int
  magic : Int
  attributes : Int
  last_offset_delta : Int
  base_timestamp : Int
  max_timestamp : Int
  producer_id : Int
  producer_epoch : Int
  base_sequence : Int
  records : List Builder
deriving DecidableEq, Repr

/-- Build every record of a batch builder; fails when any record fails. -/
def buildRecords : List Builder → Option (List Record)
  | [] => some []
  | b :: bs => (b.build).bind fun r => (buildRecords bs).map fun rs => r :: rs

/-- Modelled from the spec: building a batch serializes every record, then
computes `crc` as CRC-32C over the bytes from `attributes` onward and sets
`batch_length` to the encoded length minus 12 (the 8-byte base offset and
the 4-byte length field are excluded). -/
def BatchBuilder.build (bb : BatchBuilder) : Option Batch :=
  (buildRecords bb.records).bind fun rs =>
    let partialBatch : Batch :=
      ⟨bb.base_offset, 0, bb.partition_leader_epoch, bb.magic, 0, bb.attributes,
       bb.last_offset_delta, bb.base_timestamp, bb.max_timestamp, bb.producer_id,
       bb.producer_epoch, bb.base_sequence, rs⟩
    let range := batchCrcRange partialBatch
    let len : Int := 9 + range.length
    if len < 2 ^ 31 then
      some { partialBatch with crc := crc32c range, batch_length := len }
    else none

/-- Decode `k` consecutive records. -/
def decodeRecordsN : Nat → List Nat → Option (List Record × List Nat)
  | 0, bs => some ([], bs)
  | k + 1, bs =>
    (decodeRecord bs).bind fun pr =>
      (decodeRecordsN k pr.2).map fun pt => (pr.1 :: pt.1, pt.2)

/-- Modelled from the spec: decoding a batch reads the fixed-width prefix
fields in wire order, delimits the body by `batch_length`, verifies the
CRC over the bytes from `attributes` onward, then reads the i32 record
count and that many records, which must consume the body exactly. -/
def decodeBatch (bs : List Nat) : Option (Batch × List Nat) :=
  (decodeIntBE 8 bs).bind fun pbo =>
    (decodeIntBE 4 pbo.2).bind fun plen =>
      if 0 ≤ plen.1 ∧ plen.1.toNat ≤ plen.2.length then
        let body := plen.2.take plen.1.toNat
        (decodeIntBE 4 body).bind fun ple =>
          (decodeIntBE 1 ple.2).bind fun pmagic =>
            if 4 ≤ pmagic.2.length then
              let crcRead := fromBE (pmagic.2.take 4)
              let range := pmagic.2.drop 4
              if crc32c range = crcRead then
                (decodeIntBE 2 range).bind fun pattr =>
                  (decodeIntBE 4 pattr.2).bind fun plod =>
                    (decodeIntBE 8 plod.2).bind fun pbt =>
                      (decodeIntBE 8 pbt.2).bind fun pmt =>
                        (decodeIntBE 8 pmt.2).bind fun ppid =>
                          (decodeIntBE 2 ppid.2).bind fun ppe =>
                            (decodeIntBE 4 ppe.2).bind fun pbs =>
                              (decodeIntBE 4 pbs.2).bind fun pcount =>
                                if 0 ≤ pcount.1 then
                                  (decodeRecordsN pcount.1.toNat pcount.2).bind fun prs =>
                                    if prs.2 = [] then
                                      some (⟨pbo.1, plen.1, ple.1, pmagic.1, crcRead,
                                             pattr.1, plod.1, pbt.1, pmt.1, ppid.1,
                                             ppe.1, pbs.1, prs.1⟩,
                                            plen.2.drop plen.1.toNat)
                                    else none
                                else none
              else none
            else none
      else none

/-! ## Broker dispatch engine (`tansu-server/src/broker.rs`)

The request bodies are modelled from the spec ("a sum type, one variant
per (api_key, direction) pair"): only the request variants the
dispatcher's `response_for` matches are modelled field-by-field, each
carrying the fields the `attributes` function reads; every remaining
variant of the sum type is collapsed into `otherRequest`. -/

/-- A record frame inside a Produce request partition: a list of batches,
of which only `record_count` is read by `attributes`. -/
structure ProduceBatchStub where
  record_count : Int
deriving DecidableEq, Repr

/-- A record frame inside a Produce request partition. -/
structure ProduceFrameStub where
  batches : List ProduceBatchStub
deriving DecidableEq, Repr

/-- Per-partition data of a Produce request. -/
structure PartitionProduceData where
  records : Option ProduceFrameStub
deriving DecidableEq, Repr

/-- Per-topic data of a Produce request. -/
structure TopicProduceData where
  partition_data : Option (List PartitionProduceData)
deriving DecidableEq, Repr

/-- The request bodies handled by `Broker::response_for`
(`broker.rs` lines 275-792). -/
inductive Body
  | addOffsetsToTxnRequest (transactional_id : String) (producer_id : Int)
      (producer_epoch : Int) (group_id : String)
  | addPartitionsToTxnRequest
  | apiVersionsRequest (client_software_name : Option String)
      (client_software_version : Option String)
  | consumerGroupDescribeRequest (group_ids : Option (List String))
      (include_authorized_operations : Bool)
  | createTopicsRequest (validate_only : Option Bool)
  | deleteGroupsRequest (groups_names : Option (List String))
  | deleteRecordsRequest
  | deleteTopicsRequest
  | describeClusterRequest (include_cluster_authorized_operations : Bool)
      (endpoint_type : Option Int)
  | describeConfigsRequest
  | describeGroupsRequest (groups : Option (List String))
      (include_authorized_operations : Option Bool)
  | fetchRequest (max_wait_ms : Int) (min_bytes : Int) (max_bytes : Option Int)
  | findCoordinatorRequest
  | getTelemetrySubscriptionsRequest
  | heartbeatRequest (group_id : String) (generation_id : Int) (member_id : String)
      (group_instance_id : Option String)
  | initProducerIdRequest (transactional_id : Option String) (transaction_timeout_ms : Int)
      (producer_id : Option Int) (producer_epoch : Option Int)
  | joinGroupRequest (group_id : String) (session_timeout_ms : Int)
      (rebalance_timeout_ms : Option Int) (member_id : String)
      (group_instance_id : Option String) (protocol_type : String) (reason : Option String)
  | leaveGroupRequest (group_id : String) (member_id : Option String)
      (members : Option (List Unit))
  | listGroupsRequest
  | listOffsetsRequest (replica_id : Int) (isolation_level : Option Int)
      (topics : Option (List Unit))
  | listPartitionReassignmentsRequest
  | metadataRequest (topics : Option (List Unit)) (allow_auto_topic_creation : Option Bool)
      (include_cluster_authorized_operations : Option Bool)
      (include_topic_authorized_operations : Option Bool)
  | offsetCommitRequest
  | offsetFetchRequest (group_id : Option String) (topics : Option (List Unit))
      (groups : Option (List Unit)) (require_stable : Option Bool)
  | produceRequest (transactional_id : Option String) (acks : Int) (timeout_ms : Int)
      (topic_data : Option (List TopicProduceData))
  | syncGroupRequest (group_id : String) (generation_id : Int) (member_id : String)
      (group_instance_id : Option String) (protocol_type : Option String)
      (protocol_name : Option String) (assignments : Option (List Unit))
  | txnOffsetCommitRequest (transactional_id : String) (group_id : String)
      (producer_id : Int) (producer_epoch : Int) (generation_id : Option Int)
      (member_id : Option String) (group_instance_id : Option String)
      (topics : Option (List Unit))
  | endTxnRequest (transactional_id : String) (producer_id : Int) (producer_epoch : Int)
      (committed : Bool)
  | otherRequest
deriving DecidableEq, Repr

/-- Whether `Broker::response_for` has an arm for this body (every
modelled variant except the `otherRequest` stand-in, which falls into the
`unimplemented!()` catch-all at `broker.rs` line 787). -/
def handledByDispatcher : Body → Bool
  | .otherRequest => false
  | _ => true

/-- A telemetry attribute value. -/
inductive AttrValue
  | int (i : Int)
  | str (s : String)
  | bool (b : Bool)
deriving DecidableEq, Repr

/-- An OpenTelemetry `KeyValue` pair. -/
structure KeyValue where
  key : String
  val : AttrValue
deriving DecidableEq, Repr

/-- `KeyValue::new` with an integer value. -/
def KeyValue.int (k : String) (i : Int) : KeyValue := ⟨k, .int i⟩

/-- `KeyValue::new` with a string value. -/
def KeyValue.str (k : String) (s : String) : KeyValue := ⟨k, .str s⟩

/-- `KeyValue::new` with a boolean value. -/
def KeyValue.bool (k : String) (b : Bool) : KeyValue := ⟨k, .bool b⟩

/-- Sum of `batch.record_count` over a Produce request's topic data
(`broker.rs` lines 1044-1065). -/
def produceRecordCount (topic_data : Option (List TopicProduceData)) : Int :=
  topic_data.elim 0 fun topics =>
    (topics.map fun topic =>
      topic.partition_data.elim 0 fun parts =>
        (parts.map fun part =>
          part.records.elim 0 fun frame =>
            (frame.batches.map (·.record_count)).sum).sum).sum


/-- The `attributes` function of `broker.rs` (lines 795-1159): three base
attributes, then per-variant additions.  Variants without an explicit arm
fall into the `_ => ()` catch-all and add nothing.  In the `FetchRequest`
arm the source constructs a `max_bytes` `KeyValue` without pushing it
(`broker.rs` lines 859-861), so none is appended here either. -/
def attributes (api_key api_version : Int) (correlation_id : Int) (body : Body) :
    List KeyValue :=
  [KeyValue.int "api_key" api_key,
   KeyValue.int "api_version" api_version,
   KeyValue.int "correlation_id" correlation_id] ++
  match body with
  | .addOffsetsToTxnRequest transactional_id producer_id producer_epoch group_id =>
      [KeyValue.str "api_name" "add_offsets_to_txn",
       KeyValue.str "transactional_id" transactional_id,
       KeyValue.int "producer_id" producer_id,
       KeyValue.int "producer_epoch" producer_epoch,
       KeyValue.str "group_id" group_id]
  | .addPartitionsToTxnRequest =>
      [KeyValue.str "api_name" "add_partitions_to_txn"]
  | .apiVersionsRequest _ _ =>
      [KeyValue.str "api_name" "api_versions"]
  | .createTopicsRequest _ =>
      [KeyValue.str "api_name" "create_topics"]
  | .deleteTopicsRequest =>
      [KeyValue.str "api_name" "delete_topics"]
  | .endTxnRequest transactional_id producer_id producer_epoch committed =>
      [KeyValue.str "api_name" "end_txn",
       KeyValue.str "transactional_id" transactional_id,
       KeyValue.int "producer_id" producer_id,
       KeyValue.int "producer_epoch" producer_epoch,
       KeyValue.bool "committed" committed]
  | .fetchRequest max_wait_ms min_bytes _max_bytes =>
      [KeyValue.str "api_name" "fetch",
       KeyValue.int "max_wait_ms" max_wait_ms,
       KeyValue.int "min_bytes" min_bytes]
  | .findCoordinatorRequest =>
      [KeyValue.str "api_name" "find_coordinator"]
  | .initProducerIdRequest transactional_id transaction_timeout_ms producer_id
      producer_epoch =>
      [KeyValue.str "api_name" "init_producer_id",
       KeyValue.int "transaction_timeout_ms" transaction_timeout_ms]
      ++ (transactional_id.elim [] fun t => [KeyValue.str "transactional_id" t])
      ++ (producer_id.elim [] fun p => [KeyValue.int "producer_id" p])
      ++ (producer_epoch.elim [] fun p => [KeyValue.int "producer_epoch" p])
  | .joinGroupRequest group_id session_timeout_ms rebalance_timeout_ms member_id
      group_instance_id protocol_type reason =>
      [KeyValue.str "api_name" "join_group",
       KeyValue.str "group_id" group_id,
       KeyValue.int "session_timeout_ms" session_timeout_ms,
       KeyValue.str "member_id" member_id,
       KeyValue.str "protocol_type" protocol_type]
      ++ (rebalance_timeout_ms.elim [] fun t => [KeyValue.int "rebalance_timeout_ms" t])
      ++ (group_instance_id.elim [] fun g => [KeyValue.str "group_instance_id" g])
      ++ (reason.elim [] fun r => [KeyValue.str "reason" r])
  | .leaveGroupRequest group_id member_id members =>
      [KeyValue.str "api_name" "leave_group",
       KeyValue.str "group_id" group_id,
       KeyValue.int "members" (members.elim 0 fun ms => ms.length)]
      ++ (member_id.elim [] fun m => [KeyValue.str "member_id" m])
  | .listOffsetsRequest replica_id isolation_level topics =>
      [KeyValue.str "api_name" "list_offsets",
       KeyValue.int "replica_id" replica_id,
       KeyValue.int "topics" (topics.elim 0 fun ts => ts.length)]
      ++ (isolation_level.elim [] fun l => [KeyValue.int "isolation_level" l])
  | .metadataRequest topics allow_auto_topic_creation
      include_cluster_authorized_operations include_topic_authorized_operations =>
      [KeyValue.str "api_name" "metadata",
       KeyValue.int "topics" (topics.elim 0 fun ts => ts.length)]
      ++ (allow_auto_topic_creation.elim [] fun a =>
            [KeyValue.bool "allow_auto_topic_creation" a])
      ++ (include_cluster_authorized_operations.elim [] fun a =>
            [KeyValue.bool "include_cluster_authorized_operations" a])
      ++ (include_topic_authorized_operations.elim [] fun a =>
            [KeyValue.bool "include_topic_authorized_operations" a])
  | .offsetFetchRequest group_id topics groups require_stable =>
      [KeyValue.str "api_name" "offset_fetch",
       KeyValue.int "topics" (topics.elim 0 fun ts => ts.length),
       KeyValue.int "groups" (groups.elim 0 fun gs => gs.length)]
      ++ (group_id.elim [] fun g => [KeyValue.str "group_id" g])
      ++ (require_stable.elim [] fun r => [KeyValue.bool "require_stable" r])
  | .produceRequest transactional_id acks timeout_ms topic_data =>
      [KeyValue.str "api_name" "produce",
       KeyValue.int "records" (produceRecordCount topic_data),
       KeyValue.int "acks" acks,
       KeyValue.int "timeout_ms" timeout_ms]
      ++ (transactional_id.elim [] fun t => [KeyValue.str "transactional_id" t])
  | .syncGroupRequest group_id generation_id member_id group_instance_id protocol_type
      protocol_name assignments =>
      [KeyValue.str "api_name" "sync_group",
       KeyValue.str "group_id" group_id,
       KeyValue.int "generation_id" generation_id,
       KeyValue.str "member_id" member_id,
       KeyValue.int "assignments" (assignments.elim 0 fun asgs => asgs.length)]
      ++ (group_instance_id.elim [] fun g => [KeyValue.str "group_instance_id" g])
      ++ (protocol_type.elim [] fun p => [KeyValue.str "protocol_type" p])
      ++ (protocol_name.elim [] fun p => [KeyValue.str "protocol_name" p])
  | .txnOffsetCommitRequest transactional_id group_id producer_id producer_epoch
      generation_id member_id group_instance_id topics =>
      [KeyValue.str "api_name" "txn_offset_commit",
       KeyValue.str "transactional_id" transactional_id,
       KeyValue.str "group_id" group_id,
       KeyValue.int "producer_id" producer_id,
       KeyValue.int "producer_epoch" producer_epoch,
       KeyValue.int "topics" (topics.elim 0 fun ts => ts.length)]
      ++ (generation_id.elim [] fun g => [KeyValue.int "generation_id" g])
      ++ (member_id.elim [] fun m => [KeyValue.str "member_id" m])
      ++ (group_instance_id.elim [] fun g => [KeyValue.str "group_instance_id" g])
  | _ => []

/-- Whether the `attributes` match of `broker.rs` has an explicit arm for
this body (those arms all begin with an `api_name` attribute). -/
def attributesNamesApi : Body → Bool
  | .addOffsetsToTxnRequest _ _ _ _ => true
  | .addPartitionsToTxnRequest => true
  | .apiVersionsRequest _ _ => true
  | .createTopicsRequest _ => true
  | .deleteTopicsRequest => true
  | .endTxnRequest _ _ _ _ => true
  | .fetchRequest _ _ _ => true
  | .findCoordinatorRequest => true
  | .initProducerIdRequest _ _ _ _ => true
  | .joinGroupRequest _ _ _ _ _ _ _ => true
  | .leaveGroupRequest _ _ _ => true
  | .listOffsetsRequest _ _ _ => true
  | .metadataRequest _ _ _ _ => true
  | .offsetFetchRequest _ _ _ _ => true
  | .produceRequest _ _ _ _ => true
  | .syncGroupRequest _ _ _ _ _ _ _ => true
  | .txnOffsetCommitRequest _ _ _ _ _ _ _ _ => true
  | _ => false

/-- The attribute list passed to the `api_requests` counter
(`broker.rs` lines 246-251): the `attributes` function's result plus
`cluster_id` and `peer`. -/
def apiRequestAttributes (api_key api_version : Int) (correlation_id : Int)
    (cluster_id peer : String) (body : Body) : List KeyValue :=
  attributes api_key api_version correlation_id body
    ++ [KeyValue.str "cluster_id" cluster_id, KeyValue.str "peer" peer]

/-- Whether an attribute list carries a given key. -/
def hasKey (attrs : List KeyValue) (k : String) : Bool := attrs.any (·.key == k)

/-- A frame header (`tansu-kafka-sans-io` `Header`): request headers carry
`(api_key, api_version, correlation_id, client_id)`, response headers
carry only the correlation id.  Modelled from the spec: the `Frame` and
`Header` containers live outside `src/`. -/
inductive FrameHeader
  | request (api_key : Int) (api_version : Int) (correlation_id : Int)
      (client_id : Option String)
  | response (correlation_id : Int)
deriving DecidableEq, Repr

/-- A decoded request frame: header plus body. -/
structure Frame where
  header : FrameHeader
  body : Body
deriving DecidableEq, Repr

/-- A response frame as assembled by `Frame::response(header, body,
api_key, api_version)`; the response body type is opaque to the
dispatcher. -/
structure ResponseFrame (B : Type) where
  header : FrameHeader
  body : B
  api_key : Int
  api_version : Int
deriving DecidableEq, Repr

/-- `Broker::process_request` after frame decoding (`broker.rs` lines
230-273): destructure the request header, obtain the response body from
`response_for`, and assemble the response frame with
`Header::Response { correlation_id }` for the same correlation id.
`responseFor` abstracts `Broker::response_for` (it delegates to storage
and coordinator backends); `none` is its error path, which propagates. -/
def processRequest {B : Type} (responseFor : Option String → Body → Option B)
    (f : Frame) : Option (ResponseFrame B) :=
  match f.header with
  | .request api_key api_version correlation_id client_id =>
      (responseFor client_id f.body).map fun rb =>
        ⟨.response correlation_id, rb, api_key, api_version⟩
  | .response _ => none

/-! ## Connection read loop (`Broker::stream_handler` / `Broker::listen`)

The socket is modelled as the finite byte sequence the peer sends plus
the error kind its closure produces; `read_exact` succeeds while bytes
remain and otherwise fails with that kind.  Log emissions and metric
recordings are collected as an event trace. -/

/-- The I/O error kinds the broker distinguishes. -/
inductive IoKind
  | unexpectedEof
  | brokenPipe
  | connectionReset
  | otherIo
deriving DecidableEq, Repr

/-- The error a connection task terminates with: an I/O error of some
kind, or a request-processing failure. -/
inductive BrokerErr
  | io (k : IoKind)
  | processing
deriving DecidableEq, Repr

/-- A connection's remaining input: the bytes still to be read and the
error kind produced once they are exhausted. -/
structure Conn where
  bytes : List Nat
  endKind : IoKind
deriving DecidableEq, Repr

/-- `read_exact` on the modelled socket. -/
def readExact (n : Nat) (c : Conn) : Except IoKind (List Nat × Conn) :=
  if n ≤ c.bytes.length then .ok (c.bytes.take n, ⟨c.bytes.drop n, c.endKind⟩)
  else .error c.endKind

/-- Observable events of one loop iteration: info/error log emissions,
histogram recordings, and the response write. -/
inductive Event
  | infoEmptyRead
  | errorLog
  | recordRequestSize (n : Nat)
  | recordResponseSize (n : Nat)
  | recordRequestDuration (ms : Nat)
  | writeResponse (resp : List Nat)
deriving DecidableEq, Repr

/-- Outcome of one loop iteration: continue with the remaining input, or
return an error from `stream_handler`. -/
inductive StepOutcome
  | next (c : Conn)
  | halt (e : BrokerErr)
deriving DecidableEq, Repr

/-- Interpret four bytes as a big-endian `i32` (`i32::from_be_bytes`). -/
def i32FromBE (bs : List Nat) : Int :=
  let u := fromBE bs
  if u < 2 ^ 31 then (u : Int) else (u : Int) - 2 ^ 32

/-- The `size as usize` cast of `broker.rs` line 187: a negative `i32`
wraps to a huge 64-bit length. -/
def sizeAsUsize (v : Int) : Nat := (v % (2 ^ 64 : Nat)).toNat

/-- One iteration of the `stream_handler` read loop (`broker.rs` lines
172-227), returning the emitted events and the outcome.  `process`
abstracts `process_request` applied to the whole request buffer (size
prefix included); `elapsed` is what `request_start.elapsed()` reports at
the recording point, `none` when the clock went backwards. -/
def handlerStep (process : List Nat → Except Unit (List Nat)) (elapsed : Option Nat)
    (conn : Conn) : List Event × StepOutcome :=
  match readExact 4 conn with
  | .error k =>
      (match k with
       | .unexpectedEof | .connectionReset => []
       | _ => [Event.errorLog],
       .halt (.io k))
  | .ok (sz, conn1) =>
      if i32FromBE sz = 0 then
        ([Event.infoEmptyRead], .next conn1)
      else
        match readExact (sizeAsUsize (i32FromBE sz)) conn1 with
        | .error k => ([Event.errorLog], .halt (.io k))
        | .ok (bodyBytes, conn2) =>
          let requestBuf := sz ++ bodyBytes
          match process requestBuf with
          | .error _ =>
              ([Event.recordRequestSize requestBuf.length, Event.errorLog],
               .halt .processing)
          | .ok resp =>
              ([Event.recordRequestSize requestBuf.length,
                Event.recordResponseSize resp.length,
                Event.recordRequestDuration (elapsed.getD 0),
                Event.writeResponse resp],
               .next conn2)

/-- Run the read loop until it returns, concatenating every iteration's
events. -/
def streamHandlerRun (process : List Nat → Except Unit (List Nat)) (elapsed : Option Nat)
    (conn : Conn) : List Event × BrokerErr :=
  match h : handlerStep process elapsed conn with
  | (evs, .halt e) => (evs, e)
  | (evs, .next conn1) =>
      have hro : ∀ {n : Nat} {c c' : Conn} {bs : List Nat}, readExact n c = .ok (bs, c') →
          bs = c.bytes.take n ∧ c' = ⟨c.bytes.drop n, c.endKind⟩ ∧ n ≤ c.bytes.length := by
        intro n c c' bs hh
        unfold readExact at hh
        split at hh
        · injection hh with h1
          injection h1 with h2 h3
          exact ⟨h2.symm, h3.symm, by assumption⟩
        · cases hh
      have hlt : conn1.bytes.length < conn.bytes.length := by
        unfold handlerStep at h
        rcases hr : readExact 4 conn with k | ⟨sz, connA⟩
        · rw [hr] at h
          simp at h
        · rw [hr] at h
          dsimp only at h
          obtain ⟨-, hcA, hlen⟩ := hro hr
          by_cases hz : i32FromBE sz = 0
          · rw [if_pos hz] at h
            rw [Prod.mk.injEq] at h
            obtain ⟨-, h2⟩ := h
            injection h2 with h3
            subst h3
            rw [hcA]
            simp only [List.length_drop]
            omega
          · rw [if_neg hz] at h
            rcases hr2 : readExact (sizeAsUsize (i32FromBE sz)) connA with k2 | ⟨body, connB⟩
            · rw [hr2] at h
              simp at h
            · rw [hr2] at h
              dsimp only at h
              obtain ⟨-, hcB, -⟩ := hro hr2
              rcases hp : process (sz ++ body) with u | resp
              · rw [hp] at h
                simp at h
              · rw [hp] at h
                rw [Prod.mk.injEq] at h
                obtain ⟨-, h2⟩ := h
                injection h2 with h3
                subst h3
                rw [hcB, hcA]
                simp only [List.length_drop]
                omega
      let (evs1, e) := streamHandlerRun process elapsed conn1
      (evs ++ evs1, e)
termination_by conn.bytes.length

/-- The full per-connection log/metric trace: the loop's events followed
by the accept-handler's error match (`broker.rs` lines 148-159), which
suppresses `UnexpectedEof`, `BrokenPipe` and `ConnectionReset` and logs
everything else. -/
def connLogs (process : List Nat → Except Unit (List Nat)) (elapsed : Option Nat)
    (conn : Conn) : List Event :=
  let (evs, e) := streamHandlerRun process elapsed conn
  evs ++
    match e with
    | .io .unexpectedEof | .io .brokenPipe | .io .connectionReset => []
    | _ => [Event.errorLog]

/-! ## Well-formedness

The decidable validity predicates used by the round-trip laws: every
field lies in the range of its wire type, stored byte payloads are bytes,
and the self-describing fields (`length`, `crc`, `batch_length`) hold the
values the builders compute for them. -/

/-- An `i16` value. -/
def i16WF (v : Int) : Bool := decide (-(2 ^ 15) ≤ v) && decide (v < 2 ^ 15)

/-- An `i32` value. -/
def i32WF (v : Int) : Bool := decide (-(2 ^ 31) ≤ v) && decide (v < 2 ^ 31)

/-- An `i64` value. -/
def i64WF (v : Int) : Bool := decide (-(2 ^ 63) ≤ v) && decide (v < 2 ^ 63)

/-- A byte payload: all elements are bytes and the length fits an `i32`. -/
def bytesWF (bs : List Nat) : Bool := decide (bs.length < 2 ^ 31) && bs.all (· < 256)

/-- A nullable byte payload. -/
def octetsWF : Option (List Nat) → Bool
  | none => true
  | some bs => bytesWF bs

/-- A well-formed header. -/
def headerWF (h : Header) : Bool := octetsWF h.key && octetsWF h.value

/-- A well-formed record: its `length` field is the byte count of its
encoded tail, and every field is in range. -/
def recordWF (r : Record) : Bool :=
  decide (r.length = ((recordTail r).length : Int))
    && decide ((recordTail r).length < 2 ^ 31)
    && decide (r.attributes < 256)
    && i64WF r.timestamp_delta && i32WF r.offset_delta
    && octetsWF r.key && octetsWF r.value
    && decide (r.headers.length < 2 ^ 31) && r.headers.all headerWF

/-- A well-formed (valid) batch: every prefix field in range, `magic`
fixed at 2, records well formed, `crc` the CRC-32C of the protected
range, and `batch_length` the encoded length minus 12. -/
def batchWF (b : Batch) : Bool :=
  i64WF b.base_offset && i32WF b.partition_leader_epoch && decide (b.magic = 2)
    && decide (b.crc < 2 ^ 32)
    && i16WF b.attributes && i32WF b.last_offset_delta
    && i64WF b.base_timestamp && i64WF b.max_timestamp
    && i64WF b.producer_id && i16WF b.producer_epoch && i32WF b.base_sequence
    && decide (b.records.length < 2 ^ 31) && b.records.all recordWF
    && decide (b.crc = crc32c (batchCrcRange b))
    && decide (b.batch_length = (9 : Int) + (batchCrcRange b).length)
    && decide ((9 : Int) + (batchCrcRange b).length < 2 ^ 31)

/-! ## Concrete inputs from the source's own test vectors -/

/-- The record builder of the `record_size` / `batch` tests: value
`[100, 101, 102]`, everything else defaulted. -/
def testRecordBuilder : Builder := Builder.default.withValue [100, 101, 102]

/-- The batch builder of the `batch` test (`record.rs` lines 265-284). -/
def testBatchBuilder : BatchBuilder :=
  ⟨0, -1, 2, 0, 0, 1707058170165, 1707058170165, 1, 0, 1, [testRecordBuilder]⟩

/-- The encoded batch of the `batch_decode` test (`record.rs` lines
303-331). -/
def testBatchBytes : List Nat :=
  [0, 0, 0, 0, 0, 0, 0, 0, 0, 0, 0, 59, 255, 255, 255, 255, 2, 67, 41, 231, 61,
   0, 0, 0, 0, 0, 0, 0, 0, 1, 141, 116, 152, 137, 53, 0, 0, 1, 141, 116, 152,
   137, 53, 0, 0, 0, 0, 0, 0, 0, 1, 0, 0, 0, 0, 0, 1, 0, 0, 0, 1, 18, 0, 0, 0,
   1, 6, 100, 101, 102, 0]

/-- The decoded form of `testBatchBytes`: the batch the `batch` test
builds. -/
def testBatch : Batch :=
  ⟨0, 59, -1, 2, 1126819645, 0, 0, 1707058170165, 1707058170165, 1, 0, 1,
   [⟨9, 0, 0, 0, none, some [100, 101, 102], []⟩]⟩

/-- A trivial request processor for exercising the read loop. -/
def constProcess : List Nat → Except Unit (List Nat) := fun _ => .ok [9, 9]

/-- The record the `record_size` test builds: length 9, value
`[100, 101, 102]`, everything else defaulted. -/
def testRecord : Record := ⟨9, 0, 0, 0, none, some [100, 101, 102], []⟩

/-! ## Primitive codec lemmas -/

/-- The fuelled base-128 encoder ignores its fuel once the fuel covers the
value. -/
theorem encodeUVarintGo_congr : ∀ {n f1 f2 : Nat}, n ≤ f1 → n ≤ f2 →
    encodeUVarintGo f1 n = encodeUVarintGo f2 n := by
  intro n
  induction n using Nat.strong_induction_on with
  | _ n ih =>
    intro f1 f2 h1 h2
    match f1, f2 with
    | 0, 0 => rfl
    | 0, f2 + 1 =>
      have hn : n = 0 := by omega
      subst hn
      rfl
    | f1 + 1, 0 =>
      have hn : n = 0 := by omega
      subst hn
      rfl
    | f1 + 1, f2 + 1 =>
      show (if n < 128 then [n] else _) = (if n < 128 then [n] else _)
      by_cases h : n < 128
      · rw [if_pos h, if_pos h]
      · rw [if_neg h, if_neg h]
        have hdiv : n / 128 < n := Nat.div_lt_self (by omega) (by omega)
        have hd1 : n / 128 ≤ f1 := by omega
        have hd2 : n / 128 ≤ f2 := by omega
        rw [ih (n / 128) hdiv hd1 hd2]

/-- The defining recursion of the base-128 encoder. -/
theorem encodeUVarint_eq (n : Nat) : encodeUVarint n
    = if n < 128 then [n] else (n % 128 + 128) :: encodeUVarint (n / 128) := by
  unfold encodeUVarint
  by_cases h : n < 128
  · rw [if_pos h]
    match n, h with
    | 0, _ => rfl
    | m + 1, h => simp [encodeUVarintGo, h]
  · rw [if_neg h]
    have hn : n = (n - 1) + 1 := by omega
    rw [hn]
    show (if n - 1 + 1 < 128 then _ else _ :: encodeUVarintGo (n - 1) ((n - 1 + 1) / 128)) = _
    rw [if_neg (by omega), ← hn]
    have hdiv : n / 128 < n := Nat.div_lt_self (by omega) (by omega)
    rw [encodeUVarintGo_congr (by omega) (le_refl (n / 128))]

/-- The fuelled group counter ignores its fuel once the fuel covers the
value. -/
theorem varintGroupsGo_congr : ∀ {n f1 f2 : Nat}, n ≤ f1 → n ≤ f2 →
    varintGroupsGo f1 n = varintGroupsGo f2 n := by
  intro n
  induction n using Nat.strong_induction_on with
  | _ n ih =>
    intro f1 f2 h1 h2
    match f1, f2 with
    | 0, 0 => rfl
    | 0, f2 + 1 =>
      have hn : n = 0 := by omega
      subst hn
      rfl
    | f1 + 1, 0 =>
      have hn : n = 0 := by omega
      subst hn
      rfl
    | f1 + 1, f2 + 1 =>
      show (if n < 128 then 1 else _) = (if n < 128 then 1 else _)
      by_cases h : n < 128
      · rw [if_pos h, if_pos h]
      · rw [if_neg h, if_neg h]
        have hdiv : n / 128 < n := Nat.div_lt_self (by omega) (by omega)
        have hd1 : n / 128 ≤ f1 := by omega
        have hd2 : n / 128 ≤ f2 := by omega
        rw [ih (n / 128) hdiv hd1 hd2]

/-- The defining recursion of the varint group count. -/
theorem varintGroups_eq (n : Nat) : varintGroups n
    = if n < 128 then 1 else 1 + varintGroups (n / 128) := by
  unfold varintGroups
  by_cases h : n < 128
  · rw [if_pos h]
    match n, h with
    | 0, _ => rfl
    | m + 1, h => simp [varintGroupsGo, h]
  · rw [if_neg h]
    have hn : n = (n - 1) + 1 := by omega
    rw [hn]
    show (if n - 1 + 1 < 128 then _ else 1 + varintGroupsGo (n - 1) ((n - 1 + 1) / 128)) = _
    rw [if_neg (by omega), ← hn]
    have hdiv : n / 128 < n := Nat.div_lt_self (by omega) (by omega)
    rw [varintGroupsGo_congr (by omega) (le_refl (n / 128))]

/-- Decoding inverts the base-128 encoding, leaving trailing input. -/
theorem decodeUVarint_encodeUVarint (n : Nat) (rest : List Nat) :
    decodeUVarint (encodeUVarint n ++ rest) = some (n, rest) := by
  induction n using Nat.strong_induction_on with
  | _ n ih =>
    rw [encodeUVarint_eq]
    by_cases h : n < 128
    · simp [h, decodeUVarint]
    · rw [if_neg h]
      have hdiv : n / 128 < n := Nat.div_lt_self (by omega) (by omega)
      simp only [List.cons_append, decodeUVarint, List.append_eq]
      rw [if_neg (by omega), ih (n / 128) hdiv]
      dsimp only [Option.map]
      congr 2
      have hm : (n % 128 + 128) % 128 = n % 128 := by omega
      rw [hm]
      omega

/-- The encoded length of a base-128 value is its group count. -/
theorem length_encodeUVarint (n : Nat) : (encodeUVarint n).length = varintGroups n := by
  induction n using Nat.strong_induction_on with
  | _ n ih =>
    rw [encodeUVarint_eq, varintGroups_eq]
    by_cases h : n < 128
    · simp [h]
    · have hdiv : n / 128 < n := Nat.div_lt_self (by omega) (by omega)
      rw [if_neg h, if_neg h]
      simp [ih (n / 128) hdiv, Nat.add_comm]

/-- Unzigzag inverts zigzag. -/
theorem unzigzag_zigzag (n : Int) : unzigzag (zigzag n) = n := by
  unfold zigzag unzigzag
  by_cases h : n ≥ 0
  · rw [if_pos h, if_pos (by omega)]
    omega
  · rw [if_neg h, if_neg (by omega)]
    omega

/-- The zigzag image of an `i32` fits 32 unsigned bits. -/
theorem zigzag_lt_of_i32 {n : Int} (h1 : -(2 ^ 31) ≤ n) (h2 : n < 2 ^ 31) :
    zigzag n < 2 ^ 32 := by
  unfold zigzag
  split <;> omega

/-- The zigzag image of an `i64` fits 64 unsigned bits. -/
theorem zigzag_lt_of_i64 {n : Int} (h1 : -(2 ^ 63) ≤ n) (h2 : n < 2 ^ 63) :
    zigzag n < 2 ^ 64 := by
  unfold zigzag
  split <;> omega

/-- Signed 32-bit varint round-trip. -/
theorem decodeVarint32_encodeVarint32 {n : Int} (h1 : -(2 ^ 31) ≤ n) (h2 : n < 2 ^ 31)
    (rest : List Nat) : decodeVarint32 (encodeVarint32 n ++ rest) = some (n, rest) := by
  unfold decodeVarint32 encodeVarint32
  rw [decodeUVarint_encodeUVarint]
  dsimp only [Option.bind]
  rw [if_pos (zigzag_lt_of_i32 h1 h2), unzigzag_zigzag]

/-- Signed 64-bit varint round-trip. -/
theorem decodeVarint64_encodeVarint64 {n : Int} (h1 : -(2 ^ 63) ≤ n) (h2 : n < 2 ^ 63)
    (rest : List Nat) : decodeVarint64 (encodeVarint64 n ++ rest) = some (n, rest) := by
  unfold decodeVarint64 encodeVarint64
  rw [decodeUVarint_encodeUVarint]
  dsimp only [Option.bind]
  rw [if_pos (zigzag_lt_of_i64 h1 h2), unzigzag_zigzag]

/-- A fixed-width big-endian encoding has its advertised width. -/
theorem length_toBE (w n : Nat) : (toBE w n).length = w := by
  induction w generalizing n with
  | zero => rfl
  | succ w ih => simp [toBE, ih]

/-- Folding the big-endian bytes of `n` back recovers `n`. -/
theorem fromBE_toBE {w n : Nat} (h : n < 2 ^ (8 * w)) : fromBE (toBE w n) = n := by
  induction w generalizing n with
  | zero =>
    simp only [Nat.mul_zero, pow_zero, Nat.lt_one_iff] at h
    simp [toBE, fromBE, h]
  | succ w ih =>
    have hdiv : n / 256 < 2 ^ (8 * w) := by
      rw [Nat.div_lt_iff_lt_mul (by omega)]
      calc n < 2 ^ (8 * (w + 1)) := h
        _ = 2 ^ (8 * w) * 256 := by ring
    have hrec := ih hdiv
    unfold toBE fromBE
    rw [List.foldl_append]
    unfold fromBE at hrec
    rw [hrec]
    simp only [List.foldl_cons, List.foldl_nil]
    omega

/-- The length of a fixed-width signed encoding. -/
theorem length_encodeIntBE (w : Nat) (v : Int) : (encodeIntBE w v).length = w := by
  unfold encodeIntBE
  exact length_toBE _ _

/-- Fixed-width signed big-endian round-trip for values in range. -/
theorem decodeIntBE_encodeIntBE {w : Nat} (hw : 0 < w) {v : Int}
    (h1 : -(2 ^ (8 * w - 1)) ≤ v) (h2 : v < 2 ^ (8 * w - 1)) (rest : List Nat) :
    decodeIntBE w (encodeIntBE w v ++ rest) = some (v, rest) := by
  have hm2 : (2 ^ (8 * w) : Int) = 2 * 2 ^ (8 * w - 1) := by
    rw [← pow_succ']
    congr 1
    omega
  have hMcast : ((2 ^ (8 * w) : Nat) : Int) = (2 ^ (8 * w) : Int) := by push_cast; ring
  have hPcast : ((2 ^ (8 * w - 1) : Nat) : Int) = (2 ^ (8 * w - 1) : Int) := by push_cast; ring
  have hMne : ((2 ^ (8 * w) : Nat) : Int) ≠ 0 := by positivity
  have hmod0 : (0 : Int) ≤ v % ((2 ^ (8 * w) : Nat) : Int) := Int.emod_nonneg v hMne
  have hmodlt : v % ((2 ^ (8 * w) : Nat) : Int) < ((2 ^ (8 * w) : Nat) : Int) :=
    Int.emod_lt_of_pos v (by positivity)
  have hval : v % ((2 ^ (8 * w) : Nat) : Int) = if 0 ≤ v then v else v + 2 ^ (8 * w) := by
    split
    · exact Int.emod_eq_of_lt (by assumption) (by omega)
    · have h3 : (v + ((2 ^ (8 * w) : Nat) : Int)) % ((2 ^ (8 * w) : Nat) : Int)
          = v % ((2 ^ (8 * w) : Nat) : Int) := by
        have hx := @Int.add_mul_emod_self_left v ((2 ^ (8 * w) : Nat) : Int) 1
        rw [mul_one] at hx
        exact hx
      rw [← h3, Int.emod_eq_of_lt (by omega) (by omega)]
      omega
  unfold decodeIntBE encodeIntBE
  rw [if_pos (by rw [List.length_append, length_toBE]; omega)]
  rw [List.take_left' (length_toBE w _), List.drop_left' (length_toBE w _)]
  rw [fromBE_toBE (by omega)]
  simp only [Option.some_inj, Prod.mk.injEq, and_true]
  by_cases hv : 0 ≤ v
  · rw [if_pos (by omega)]
    omega
  · rw [if_neg (by omega)]
    omega


/-! ## Encoded-length lemmas -/

/-- The encoded length of a signed 32-bit varint is its `size_in_bytes`. -/
theorem length_encodeVarint32 (n : Int) : (encodeVarint32 n).length = varint32Size n :=
  length_encodeUVarint _

/-- The encoded length of a signed 64-bit varint is its `size_in_bytes`. -/
theorem length_encodeVarint64 (n : Int) : (encodeVarint64 n).length = varint64Size n :=
  length_encodeUVarint _

/-- The encoded length of a nullable byte sequence is its `size_in_bytes`. -/
theorem length_encodeOctets (o : Option (List Nat)) :
    (encodeOctets o).length = octetsSize o := by
  cases o with
  | none => exact length_encodeUVarint _
  | some bs =>
    simp only [encodeOctets, octetsSize, List.length_append, length_encodeVarint32]

/-- The encoded length of a header is its `size_in_bytes`. -/
theorem length_encodeHeader (h : Header) : (encodeHeader h).length = headerSize h := by
  simp only [encodeHeader, headerSize, List.length_append, length_encodeOctets]

/-- The encoded length of a header sequence is its `size_in_bytes`. -/
theorem length_encodeHeaders (hs : List Header) :
    (encodeHeaders hs).length = headersSize hs := by
  simp only [encodeHeaders, headersSize, List.length_append, length_encodeVarint32,
    List.length_flatten, List.map_map]
  congr 1
  induction hs with
  | nil => rfl
  | cons h t ih => simp [ih, length_encodeHeader]

/-- The encoded tail of a record is as long as the builder size formula
computed over the record's fields says. -/
theorem length_recordTail (r : Record) :
    (recordTail r).length = (Builder.ofRecord r).size_in_bytes := by
  simp only [recordTail, Builder.ofRecord, Builder.size_in_bytes, List.length_append,
    List.length_singleton, length_encodeVarint64, length_encodeVarint32,
    length_encodeOctets, length_encodeHeaders]

/-! ## Round-trip lemmas -/

/-- Nullable byte-sequence round-trip. -/
theorem decodeOctets_encodeOctets {o : Option (List Nat)} (hw : octetsWF o = true)
    (rest : List Nat) : decodeOctets (encodeOctets o ++ rest) = some (o, rest) := by
  cases o with
  | none =>
    unfold encodeOctets decodeOctets
    rw [decodeVarint32_encodeVarint32 (by norm_num) (by norm_num)]
    dsimp only [Option.bind]
    rw [if_pos rfl]
  | some bs =>
    have hlen : (bs.length : Int) < 2 ^ 31 := by
      have := (by simpa [octetsWF, bytesWF] using hw : bs.length < 2 ^ 31 ∧ _)
      exact_mod_cast this.1
    unfold encodeOctets decodeOctets
    rw [List.append_assoc, decodeVarint32_encodeVarint32 (by omega) hlen]
    dsimp only [Option.bind]
    rw [if_neg (by omega), if_pos (by omega)]
    simp only [Int.toNat_natCast]
    rw [if_pos (by simp), List.take_left, List.drop_left]

/-- Header round-trip. -/
theorem decodeHeader_encodeHeader {h : Header} (hw : headerWF h = true)
    (rest : List Nat) : decodeHeader (encodeHeader h ++ rest) = some (h, rest) := by
  have hkv : octetsWF h.key = true ∧ octetsWF h.value = true := by
    have hx := hw
    unfold headerWF at hx
    simp only [Bool.and_eq_true] at hx
    exact hx
  unfold encodeHeader decodeHeader
  rw [List.append_assoc, decodeOctets_encodeOctets hkv.1]
  dsimp only [Option.bind]
  rw [decodeOctets_encodeOctets hkv.2]
  rfl

/-- Round-trip for a run of encoded headers. -/
theorem decodeHeadersN_encode {hs : List Header} (hw : hs.all headerWF = true)
    (rest : List Nat) :
    decodeHeadersN hs.length ((hs.map encodeHeader).flatten ++ rest) = some (hs, rest) := by
  induction hs with
  | nil => simp [decodeHeadersN]
  | cons h t ih =>
    have hh : headerWF h = true := by
      have := hw
      simp only [List.all_cons, Bool.and_eq_true] at this
      exact this.1
    have ht : t.all headerWF = true := by
      have := hw
      simp only [List.all_cons, Bool.and_eq_true] at this
      exact this.2
    simp only [List.map_cons, List.flatten_cons, List.length_cons, List.append_assoc]
    rw [decodeHeadersN, decodeHeader_encodeHeader hh]
    dsimp only [Option.bind]
    rw [ih ht]
    rfl

/-- Header-sequence round-trip. -/
theorem decodeHeaders_encodeHeaders {hs : List Header} (hw : hs.all headerWF = true)
    (hlen : hs.length < 2 ^ 31) (rest : List Nat) :
    decodeHeaders (encodeHeaders hs ++ rest) = some (hs, rest) := by
  unfold encodeHeaders decodeHeaders
  rw [List.append_assoc,
      decodeVarint32_encodeVarint32 (by omega) (by exact_mod_cast hlen)]
  dsimp only [Option.bind]
  rw [if_pos (by omega)]
  simp only [Int.toNat_natCast]
  exact decodeHeadersN_encode hw rest

/-- Record round-trip: decoding the encoding of a well-formed record
recovers it exactly, leaving trailing input untouched. -/
theorem decodeRecord_encodeRecord {r : Record} (hw : recordWF r = true)
    (rest : List Nat) : decodeRecord (encodeRecord r ++ rest) = some (r, rest) := by
  have hx := hw
  simp only [recordWF, i64WF, i32WF, Bool.and_eq_true, decide_eq_true_eq] at hx
  obtain ⟨⟨⟨⟨⟨⟨⟨⟨hlen, hlt⟩, hattr⟩, hts1, hts2⟩, hod1, hod2⟩, hkey⟩, hval⟩,
    hhlen⟩, hhwf⟩ := hx
  unfold encodeRecord decodeRecord
  rw [List.append_assoc, decodeVarint32_encodeVarint32 (by omega) (by omega)]
  dsimp only [Option.bind]
  have hc2 : r.length.toNat ≤ (recordTail r ++ rest).length := by
    rw [List.length_append]
    omega
  rw [if_pos ⟨by omega, hc2⟩]
  rw [List.take_left' (by omega), List.drop_left' (by omega)]
  have hdh : decodeHeaders (encodeHeaders r.headers) = some (r.headers, []) := by
    have hd := decodeHeaders_encodeHeaders hhwf hhlen ([])
    rwa [List.append_nil] at hd
  have htail : decodeRecordTail r.length (recordTail r)
      = (decodeVarint64 (encodeVarint64 r.timestamp_delta ++ (encodeVarint32 r.offset_delta
          ++ (encodeOctets r.key ++ (encodeOctets r.value ++ encodeHeaders r.headers))))).bind
          fun pts =>
            (decodeVarint32 pts.2).bind fun pod =>
              (decodeOctets pod.2).bind fun pk =>
                (decodeOctets pk.2).bind fun pv =>
                  (decodeHeaders pv.2).bind fun ph =>
                    if ph.2 = [] then
                      some ⟨r.length, r.attributes, pts.1, pod.1, pk.1, pv.1, ph.1⟩
                    else none := by
    simp only [recordTail, List.append_assoc, List.singleton_append]
    rfl
  rw [htail]
  rw [decodeVarint64_encodeVarint64 hts1 hts2]
  dsimp only [Option.bind]
  rw [decodeVarint32_encodeVarint32 hod1 hod2]
  dsimp only [Option.bind]
  rw [decodeOctets_encodeOctets hkey]
  dsimp only [Option.bind]
  rw [decodeOctets_encodeOctets hval]
  dsimp only [Option.bind]
  rw [hdh]
  dsimp only [Option.bind]
  rw [if_pos rfl]
  rfl

/-- Round-trip for a run of encoded records. -/
theorem decodeRecordsN_encode {rs : List Record} (hw : rs.all recordWF = true)
    (rest : List Nat) :
    decodeRecordsN rs.length ((rs.map encodeRecord).flatten ++ rest) = some (rs, rest) := by
  induction rs with
  | nil => simp [decodeRecordsN]
  | cons r t ih =>
    have hrt : recordWF r = true ∧ t.all recordWF = true := by
      simpa [List.all_cons, Bool.and_eq_true] using hw
    simp only [List.map_cons, List.flatten_cons, List.length_cons, List.append_assoc]
    rw [decodeRecordsN, decodeRecord_encodeRecord hrt.1]
    dsimp only [Option.bind]
    rw [ih hrt.2]
    rfl

set_option maxHeartbeats 2000000

/-- Batch round-trip: decoding the encoding of a valid batch recovers it
exactly, leaving trailing input untouched. -/
theorem decodeBatch_encodeBatch {b : Batch} (hw : batchWF b = true)
    (rest : List Nat) : decodeBatch (encodeBatch b ++ rest) = some (b, rest) := by
  have hx := hw
  simp only [batchWF, i64WF, i32WF, i16WF, Bool.and_eq_true, decide_eq_true_eq] at hx
  obtain ⟨⟨⟨⟨⟨⟨⟨⟨⟨⟨⟨⟨⟨⟨⟨⟨hbo1, hbo2⟩, hple1, hple2⟩, hmagic⟩, hcrclt⟩,
    hattr1, hattr2⟩, hlod1, hlod2⟩, hbt1, hbt2⟩, hmt1, hmt2⟩, hpid1, hpid2⟩,
    hpe1, hpe2⟩, hbs1, hbs2⟩, hrcnt⟩, hrwf⟩, hcrc⟩, hblen⟩, hblt⟩ := hx
  have hL1 : (encodeIntBE 4 b.partition_leader_epoch).length = 4 := length_encodeIntBE 4 _
  have hL2 : (encodeIntBE 1 b.magic).length = 1 := length_encodeIntBE 1 _
  have hL3 : (toBE 4 b.crc).length = 4 := length_toBE 4 _
  have harg : encodeBatch b ++ rest
      = encodeIntBE 8 b.base_offset ++ (encodeIntBE 4 b.batch_length
        ++ ((encodeIntBE 4 b.partition_leader_epoch ++ (encodeIntBE 1 b.magic
          ++ (toBE 4 b.crc ++ batchCrcRange b))) ++ rest)) := by
    unfold encodeBatch
    simp only [List.append_assoc]
  have hrange : batchCrcRange b
      = encodeIntBE 2 b.attributes ++ (encodeIntBE 4 b.last_offset_delta
        ++ (encodeIntBE 8 b.base_timestamp ++ (encodeIntBE 8 b.max_timestamp
          ++ (encodeIntBE 8 b.producer_id ++ (encodeIntBE 2 b.producer_epoch
            ++ (encodeIntBE 4 b.base_sequence ++ (encodeIntBE 4 (b.records.length : Int)
              ++ (b.records.map encodeRecord).flatten))))))) := by
    unfold batchCrcRange
    simp only [List.append_assoc]
  rw [harg]
  unfold decodeBatch
  rw [decodeIntBE_encodeIntBE (by norm_num) (by omega) (by omega)]
  dsimp only [Option.bind]
  rw [decodeIntBE_encodeIntBE (by norm_num) (by omega) (by omega)]
  dsimp only [Option.bind]
  have hbody : (encodeIntBE 4 b.partition_leader_epoch ++ (encodeIntBE 1 b.magic
      ++ (toBE 4 b.crc ++ batchCrcRange b))).length = b.batch_length.toNat := by
    simp only [List.length_append, hL1, hL2, hL3]
    omega
  have hc2 : b.batch_length.toNat
      ≤ ((encodeIntBE 4 b.partition_leader_epoch ++ (encodeIntBE 1 b.magic
          ++ (toBE 4 b.crc ++ batchCrcRange b))) ++ rest).length := by
    rw [List.length_append]
    omega
  rw [if_pos ⟨by omega, hc2⟩]
  rw [List.take_left' hbody, List.drop_left' hbody]
  rw [decodeIntBE_encodeIntBE (by norm_num) (by omega) (by omega)]
  dsimp only [Option.bind]
  rw [decodeIntBE_encodeIntBE (by norm_num) (by omega) (by omega)]
  dsimp only [Option.bind]
  rw [if_pos (by simp [hL3])]
  rw [List.take_left' hL3, List.drop_left' hL3, fromBE_toBE hcrclt]
  rw [if_pos hcrc.symm]
  rw [hrange]
  rw [decodeIntBE_encodeIntBE (by norm_num) (by omega) (by omega)]
  dsimp only [Option.bind]
  rw [decodeIntBE_encodeIntBE (by norm_num) (by omega) (by omega)]
  dsimp only [Option.bind]
  rw [decodeIntBE_encodeIntBE (by norm_num) (by omega) (by omega)]
  dsimp only [Option.bind]
  rw [decodeIntBE_encodeIntBE (by norm_num) (by omega) (by omega)]
  dsimp only [Option.bind]
  rw [decodeIntBE_encodeIntBE (by norm_num) (by omega) (by omega)]
  dsimp only [Option.bind]
  rw [decodeIntBE_encodeIntBE (by norm_num) (by omega) (by omega)]
  dsimp only [Option.bind]
  rw [decodeIntBE_encodeIntBE (by norm_num) (by omega) (by omega)]
  dsimp only [Option.bind]
  rw [decodeIntBE_encodeIntBE (by norm_num) (by omega) (by omega)]
  dsimp only [Option.bind]
  rw [if_pos (by omega)]
  simp only [Int.toNat_natCast]
  have hrecs : decodeRecordsN b.records.length ((b.records.map encodeRecord).flatten)
      = some (b.records, []) := by
    have hd := decodeRecordsN_encode hrwf ([])
    rwa [List.append_nil] at hd
  rw [hrecs]
  dsimp only [Option.bind]
  rw [if_pos rfl]

set_option maxHeartbeats 200000

/-! ## Dispatch-loop lemmas -/

/-- A run of the read loop whose first iteration halts returns that
iteration's events and error. -/
theorem streamHandlerRun_halt {process : List Nat → Except Unit (List Nat)}
    {elapsed : Option Nat} {conn : Conn} {evs : List Event} {er : BrokerErr}
    (h : handlerStep process elapsed conn = (evs, .halt er)) :
    streamHandlerRun process elapsed conn = (evs, er) := by
  unfold streamHandlerRun
  split
  next evs' e' heq =>
    rw [h] at heq
    injection heq with h1 h2
    injection h2 with h3
    rw [h1, h3]
  next evs' conn1 heq =>
    rw [h] at heq
    injection heq with h1 h2
    exact absurd h2 (by simp)

/-- A failing `read_exact`: fewer bytes available than requested. -/
theorem readExact_error {n : Nat} {c : Conn} (h : c.bytes.length < n) :
    readExact n c = .error c.endKind := by
  unfold readExact
  rw [if_neg (by omega)]

/-! ## Claims -/

set_option maxRecDepth 1000000

/-- C1: building a batch with base_offset 0, partition_leader_epoch -1,
magic 2, attributes 0, last_offset_delta 0, base_timestamp =
max_timestamp = 1707058170165, producer_id 1, producer_epoch 0,
base_sequence 1 and one record valued `[100, 101, 102]` yields
`batch_length = 59` and `crc = 1126819645`; moreover the built `crc` is
the CRC-32C of the byte range from `attributes` through the final record
byte, and `batch_length` is the encoded batch length minus 12. -/
theorem claim_C1_batch_build :
    ∃ b, testBatchBuilder.build = some b ∧ b.batch_length = 59 ∧ b.crc = 1126819645
      ∧ b.crc = crc32c (batchCrcRange b)
      ∧ (encodeBatch b).length = b.batch_length.toNat + 12 :=
  ⟨testBatch, rfl, rfl, rfl, rfl, rfl⟩

/-- C2: decoding the encoding of every valid batch recovers it, and the
source's 71-byte test vector decodes to the batch of C1. -/
theorem claim_C2_batch_round_trip :
    (∀ b : Batch, batchWF b = true → decodeBatch (encodeBatch b) = some (b, []))
      ∧ decodeBatch testBatchBytes = some (testBatch, []) := by
  constructor
  · intro b hwf
    have h := decodeBatch_encodeBatch hwf []
    rwa [List.append_nil] at h
  · rfl

/-- Witness for C2 at the concrete test batch. -/
theorem claim_C2_witness :
    batchWF testBatch = true
      ∧ decodeBatch (encodeBatch testBatch) = some (testBatch, []) :=
  ⟨rfl, claim_C2_batch_round_trip.1 testBatch rfl⟩

/-- C3: for every record the builder produces, the `length` field equals
the byte count of the encoded tail, and the full encoding is `length`
plus the varint size of the `length` field itself. -/
theorem claim_C3_record_length :
    ∀ (bu : Builder) (r : Record), bu.build = some r →
      r.length = ((recordTail r).length : Int)
        ∧ (encodeRecord r).length = r.length.toNat + varint32Size r.length := by
  intro bu r hb
  unfold Builder.build at hb
  split at hb
  case isFalse => cases hb
  case isTrue hsz =>
    injection hb with hb1
    subst hb1
    refine ⟨?_, ?_⟩
    · rw [length_recordTail]
      rfl
    · rw [encodeRecord, List.length_append, length_encodeVarint32, length_recordTail]
      have hofe : Builder.ofRecord ⟨(bu.size_in_bytes : Int), bu.attributes,
          bu.timestamp_delta, bu.offset_delta, bu.key, bu.value, bu.headers⟩ = bu := rfl
      rw [hofe]
      dsimp only
      rw [Int.toNat_natCast]
      omega

/-- Witness for C3 at the builder of the `record_size` test. -/
theorem claim_C3_witness :
    testRecordBuilder.build = some testRecord
      ∧ (testRecord.length = ((recordTail testRecord).length : Int)
        ∧ (encodeRecord testRecord).length
            = testRecord.length.toNat + varint32Size testRecord.length) :=
  ⟨rfl, claim_C3_record_length testRecordBuilder testRecord rfl⟩

/-- C4: the defaulted record with value `[100, 101, 102]` has
`size_in_bytes` 9 and its encoding begins
`18 00 00 00 01 06 64 65 66 00`. -/
theorem claim_C4_record_size :
    testRecordBuilder.size_in_bytes = 9
      ∧ (testRecordBuilder.build).map (fun r => (encodeRecord r).take 10)
          = some [0x12, 0x00, 0x00, 0x00, 0x01, 0x06, 0x64, 0x65, 0x66, 0x00] :=
  ⟨rfl, rfl⟩

/-- C5: every response frame the dispatcher produces carries the
correlation id of the request frame that produced it. -/
theorem claim_C5_correlation :
    ∀ {B : Type} (responseFor : Option String → Body → Option B)
      (api_key api_version correlation_id : Int) (client_id : Option String)
      (body : Body) (resp : ResponseFrame B),
      processRequest responseFor
          ⟨.request api_key api_version correlation_id client_id, body⟩ = some resp →
      resp.header = .response correlation_id := by
  intro B responseFor api_key api_version correlation_id client_id body resp h
  unfold processRequest at h
  dsimp only at h
  rcases hx : responseFor client_id body with _ | rb
  · rw [hx] at h
    cases h
  · rw [hx] at h
    injection h with h1
    rw [← h1]

/-- Witness for C5 at a concrete ApiVersions request frame. -/
theorem claim_C5_witness :
    processRequest (fun _ _ => some ())
        ⟨.request 18 4 42 none, .apiVersionsRequest none none⟩
        = some ⟨.response 42, (), 18, 4⟩
      ∧ (⟨.response 42, (), 18, 4⟩ : ResponseFrame Unit).header = .response 42 :=
  ⟨rfl, claim_C5_correlation (fun _ _ => some ()) 18 4 42 none
    (.apiVersionsRequest none none) ⟨.response 42, (), 18, 4⟩ rfl⟩

/-- C6: a zero size prefix makes the read loop log an empty read and
continue awaiting the next size prefix: no body bytes are consumed, no
response is written, and the connection is not terminated. -/
theorem claim_C6_empty_read :
    ∀ (process : List Nat → Except Unit (List Nat)) (elapsed : Option Nat)
      (conn : Conn) (rest : List Nat), conn.bytes = 0 :: 0 :: 0 :: 0 :: rest →
      handlerStep process elapsed conn
        = ([Event.infoEmptyRead], .next ⟨rest, conn.endKind⟩) := by
  intro process elapsed conn rest hb
  unfold handlerStep
  have hre : readExact 4 conn = .ok ([0, 0, 0, 0], ⟨rest, conn.endKind⟩) := by
    unfold readExact
    rw [hb, if_pos (by simp)]
    simp
  rw [hre]
  dsimp only
  rw [if_pos (by rfl)]

/-- Witness for C6 at a concrete connection input. -/
theorem claim_C6_witness :
    (⟨[0, 0, 0, 0, 5, 6], .unexpectedEof⟩ : Conn).bytes = 0 :: 0 :: 0 :: 0 :: [5, 6]
      ∧ handlerStep constProcess none ⟨[0, 0, 0, 0, 5, 6], .unexpectedEof⟩
          = ([Event.infoEmptyRead], .next ⟨[5, 6], .unexpectedEof⟩) :=
  ⟨rfl, claim_C6_empty_read constProcess none ⟨[0, 0, 0, 0, 5, 6], .unexpectedEof⟩ [5, 6] rfl⟩

/-- C7 counterexample: a peer that closes after sending the size prefix
`[0,0,0,10]` and only three body bytes (EOF mid-request) produces an
error-level log from the read loop, so the connection does not terminate
silently as the claim states. -/
theorem claim_C7_counterexample :
    connLogs constProcess none ⟨[0, 0, 0, 10, 1, 2, 3], .unexpectedEof⟩
      = [Event.errorLog] := by
  have hstep : handlerStep constProcess none ⟨[0, 0, 0, 10, 1, 2, 3], .unexpectedEof⟩
      = ([Event.errorLog], .halt (.io .unexpectedEof)) := rfl
  unfold connLogs
  rw [streamHandlerRun_halt hstep]
  rfl

/-- C7 (amended): EOF or ConnectionReset on the size-prefix read
terminates the connection silently; BrokenPipe on the size-prefix read is
logged at error level by the read loop (though suppressed by the outer
accept handler); any other I/O error is logged by both.  An I/O failure
on the body read — the peer closing mid-request included — is always
logged at error level by the read loop, with the outer handler adding a
second log only for kinds other than EOF/BrokenPipe/ConnectionReset. -/
theorem claim_C7_amended_io_logging :
    (∀ (process : List Nat → Except Unit (List Nat)) (elapsed : Option Nat)
      (conn : Conn), conn.bytes.length < 4 →
      connLogs process elapsed conn =
        match conn.endKind with
        | .unexpectedEof => []
        | .connectionReset => []
        | .brokenPipe => [Event.errorLog]
        | .otherIo => [Event.errorLog, Event.errorLog])
    ∧ (∀ (process : List Nat → Except Unit (List Nat)) (elapsed : Option Nat)
        (conn : Conn) (b0 b1 b2 b3 : Nat) (rest : List Nat),
        conn.bytes = b0 :: b1 :: b2 :: b3 :: rest →
        i32FromBE [b0, b1, b2, b3] ≠ 0 →
        rest.length < sizeAsUsize (i32FromBE [b0, b1, b2, b3]) →
        connLogs process elapsed conn =
          Event.errorLog :: (match conn.endKind with
            | .otherIo => [Event.errorLog]
            | _ => [])) := by
  constructor
  · intro process elapsed conn hlen
    obtain ⟨bytes, ek⟩ := conn
    cases ek with
    | unexpectedEof =>
      have hstep : handlerStep process elapsed ⟨bytes, .unexpectedEof⟩
          = ([], .halt (.io .unexpectedEof)) := by
        unfold handlerStep
        rw [readExact_error hlen]
      unfold connLogs
      rw [streamHandlerRun_halt hstep]
      rfl
    | brokenPipe =>
      have hstep : handlerStep process elapsed ⟨bytes, .brokenPipe⟩
          = ([Event.errorLog], .halt (.io .brokenPipe)) := by
        unfold handlerStep
        rw [readExact_error hlen]
      unfold connLogs
      rw [streamHandlerRun_halt hstep]
      rfl
    | connectionReset =>
      have hstep : handlerStep process elapsed ⟨bytes, .connectionReset⟩
          = ([], .halt (.io .connectionReset)) := by
        unfold handlerStep
        rw [readExact_error hlen]
      unfold connLogs
      rw [streamHandlerRun_halt hstep]
      rfl
    | otherIo =>
      have hstep : handlerStep process elapsed ⟨bytes, .otherIo⟩
          = ([Event.errorLog], .halt (.io .otherIo)) := by
        unfold handlerStep
        rw [readExact_error hlen]
      unfold connLogs
      rw [streamHandlerRun_halt hstep]
      rfl
  · intro process elapsed conn b0 b1 b2 b3 rest hb hnz hshort
    obtain ⟨bytes, ek⟩ := conn
    dsimp only at hb
    subst hb
    have hre : readExact 4 ⟨b0 :: b1 :: b2 :: b3 :: rest, ek⟩
        = .ok ([b0, b1, b2, b3], ⟨rest, ek⟩) := by
      unfold readExact
      rw [if_pos (by simp)]
      simp
    have hre2 : readExact (sizeAsUsize (i32FromBE [b0, b1, b2, b3])) ⟨rest, ek⟩
        = .error ek := readExact_error hshort
    have hstep : handlerStep process elapsed ⟨b0 :: b1 :: b2 :: b3 :: rest, ek⟩
        = ([Event.errorLog], .halt (.io ek)) := by
      unfold handlerStep
      rw [hre]
      dsimp only
      rw [if_neg hnz, hre2]
    unfold connLogs
    rw [streamHandlerRun_halt hstep]
    cases ek <;> rfl

/-- Witness for the amended C7 at a concrete connection whose peer
closes before a full size prefix arrives. -/
theorem claim_C7_witness :
    (⟨[1, 2], .unexpectedEof⟩ : Conn).bytes.length < 4
      ∧ connLogs constProcess none ⟨[1, 2], .unexpectedEof⟩ = [] :=
  ⟨by decide,
   claim_C7_amended_io_logging.1 constProcess none ⟨[1, 2], .unexpectedEof⟩ (by decide)⟩

/-- C8 counterexample: in a concrete successful iteration the
`response_size` and `request_duration` histogram samples are recorded
before the response write, with the write last in the trace —
contradicting the claimed write-then-record order. -/
theorem claim_C8_counterexample :
    (handlerStep constProcess (some 5) ⟨[0, 0, 0, 1, 7], .unexpectedEof⟩).1
        = [Event.recordRequestSize 5, Event.recordResponseSize 2,
           Event.recordRequestDuration 5, Event.writeResponse [9, 9]]
      ∧ (handlerStep constProcess (some 5) ⟨[0, 0, 0, 1, 7], .unexpectedEof⟩).1.getLast?
          = some (Event.writeResponse [9, 9]) :=
  ⟨rfl, rfl⟩

/-- C8 (amended): within each successful iteration of the read loop the
`response_size` and `request_duration` samples are recorded before the
response is written to the socket, and the recorded duration is what
`request_start.elapsed()` reports at the recording point (0 when the
clock went backwards), in milliseconds. -/
theorem claim_C8_amended_metrics_order :
    ∀ (process : List Nat → Except Unit (List Nat)) (elapsed : Option Nat)
      (conn : Conn) (b0 b1 b2 b3 : Nat) (rest resp : List Nat),
      conn.bytes = b0 :: b1 :: b2 :: b3 :: rest →
      i32FromBE [b0, b1, b2, b3] ≠ 0 →
      sizeAsUsize (i32FromBE [b0, b1, b2, b3]) ≤ rest.length →
      process ([b0, b1, b2, b3] ++ rest.take (sizeAsUsize (i32FromBE [b0, b1, b2, b3])))
          = .ok resp →
      handlerStep process elapsed conn =
        ([Event.recordRequestSize (4 + sizeAsUsize (i32FromBE [b0, b1, b2, b3])),
          Event.recordResponseSize resp.length,
          Event.recordRequestDuration (elapsed.getD 0),
          Event.writeResponse resp],
         .next ⟨rest.drop (sizeAsUsize (i32FromBE [b0, b1, b2, b3])), conn.endKind⟩) := by
  intro process elapsed conn b0 b1 b2 b3 rest resp hb hnz hfit hproc
  obtain ⟨bytes, ek⟩ := conn
  dsimp only at hb ⊢
  subst hb
  have hre : readExact 4 ⟨b0 :: b1 :: b2 :: b3 :: rest, ek⟩
      = .ok ([b0, b1, b2, b3], ⟨rest, ek⟩) := by
    unfold readExact
    rw [if_pos (by simp)]
    simp
  have hre2 : readExact (sizeAsUsize (i32FromBE [b0, b1, b2, b3])) ⟨rest, ek⟩
      = .ok (rest.take (sizeAsUsize (i32FromBE [b0, b1, b2, b3])),
             ⟨rest.drop (sizeAsUsize (i32FromBE [b0, b1, b2, b3])), ek⟩) := by
    unfold readExact
    rw [if_pos hfit]
  unfold handlerStep
  rw [hre]
  dsimp only
  rw [if_neg hnz, hre2]
  dsimp only
  rw [hproc]
  have hlen4 : ([b0, b1, b2, b3]
      ++ rest.take (sizeAsUsize (i32FromBE [b0, b1, b2, b3]))).length
      = 4 + sizeAsUsize (i32FromBE [b0, b1, b2, b3]) := by
    simp [List.length_take, Nat.min_eq_left hfit]
    omega
  rw [hlen4]

/-- Witness for the amended C8 at a concrete successful iteration. -/
theorem claim_C8_witness :
    i32FromBE [0, 0, 0, 1] ≠ 0
      ∧ sizeAsUsize (i32FromBE [0, 0, 0, 1]) ≤ ([7] : List Nat).length
      ∧ constProcess ([0, 0, 0, 1] ++ ([7] : List Nat).take
            (sizeAsUsize (i32FromBE [0, 0, 0, 1]))) = .ok [9, 9]
      ∧ handlerStep constProcess (some 5) ⟨[0, 0, 0, 1, 7], .unexpectedEof⟩
          = ([Event.recordRequestSize (4 + sizeAsUsize (i32FromBE [0, 0, 0, 1])),
              Event.recordResponseSize ([9, 9] : List Nat).length,
              Event.recordRequestDuration ((some 5).getD 0),
              Event.writeResponse [9, 9]],
             .next ⟨([7] : List Nat).drop (sizeAsUsize (i32FromBE [0, 0, 0, 1])),
                    .unexpectedEof⟩) :=
  ⟨by decide, by decide, rfl,
   claim_C8_amended_metrics_order constProcess (some 5)
     ⟨[0, 0, 0, 1, 7], .unexpectedEof⟩ 0 0 0 1 [7] [9, 9] rfl (by decide) (by decide) rfl⟩

/-- C9 counterexample: the Heartbeat request is handled by the
dispatcher, yet the attribute list passed to the `api_requests` counter
for it carries no `api_name` attribute (it falls into the `attributes`
function's catch-all arm). -/
theorem claim_C9_counterexample :
    handledByDispatcher (Body.heartbeatRequest "g" 0 "m" none) = true
      ∧ hasKey (apiRequestAttributes 12 4 7 "c1" "p1"
            (Body.heartbeatRequest "g" 0 "m" none)) "api_name" = false := by
  refine ⟨rfl, ?_⟩
  decide

/-- C9 (amended): for every request body the dispatcher handles, the
attribute list passed when incrementing `api_requests` carries
`api_key`, `api_version`, `correlation_id`, `cluster_id` and `peer`; it
carries an `api_name` attribute exactly when the body has an explicit
arm in the `attributes` function (seventeen of the handled variants),
and no `api_name` for the remaining handled variants. -/
theorem claim_C9_amended_attributes :
    ∀ (api_key api_version correlation_id : Int) (cluster_id peer : String)
      (body : Body), handledByDispatcher body = true →
      (hasKey (apiRequestAttributes api_key api_version correlation_id cluster_id peer
          body) "api_key" = true
        ∧ hasKey (apiRequestAttributes api_key api_version correlation_id cluster_id peer
            body) "api_version" = true
        ∧ hasKey (apiRequestAttributes api_key api_version correlation_id cluster_id peer
            body) "correlation_id" = true
        ∧ hasKey (apiRequestAttributes api_key api_version correlation_id cluster_id peer
            body) "cluster_id" = true
        ∧ hasKey (apiRequestAttributes api_key api_version correlation_id cluster_id peer
            body) "peer" = true)
      ∧ hasKey (apiRequestAttributes api_key api_version correlation_id cluster_id peer
          body) "api_name" = attributesNamesApi body := by
  intro api_key api_version correlation_id cluster_id peer body hbody
  cases body <;>
    simp_all [apiRequestAttributes, attributes, hasKey, attributesNamesApi,
      handledByDispatcher, KeyValue.int, KeyValue.str, KeyValue.bool]

/-- Witness for the amended C9 at a concrete handled request. -/
theorem claim_C9_witness :
    handledByDispatcher (Body.listGroupsRequest) = true
      ∧ ((hasKey (apiRequestAttributes 16 5 99 "c2" "p2" Body.listGroupsRequest)
            "api_key" = true
          ∧ hasKey (apiRequestAttributes 16 5 99 "c2" "p2" Body.listGroupsRequest)
              "api_version" = true
          ∧ hasKey (apiRequestAttributes 16 5 99 "c2" "p2" Body.listGroupsRequest)
              "correlation_id" = true
          ∧ hasKey (apiRequestAttributes 16 5 99 "c2" "p2" Body.listGroupsRequest)
              "cluster_id" = true
          ∧ hasKey (apiRequestAttributes 16 5 99 "c2" "p2" Body.listGroupsRequest)
              "peer" = true)
        ∧ hasKey (apiRequestAttributes 16 5 99 "c2" "p2" Body.listGroupsRequest)
            "api_name" = attributesNamesApi Body.listGroupsRequest) :=
  ⟨rfl, claim_C9_amended_attributes 16 5 99 "c2" "p2" Body.listGroupsRequest rfl⟩

/-- C10: a record whose `length` field equals the computed size of its
remaining fields converts to a `Builder` and back to the identical
record: every field is preserved and `build` recomputes the `length`
field to the same value. -/
theorem claim_C10_builder_round_trip :
    ∀ r : Record, r.length = ((Builder.ofRecord r).size_in_bytes : Int) →
      (Builder.ofRecord r).size_in_bytes < 2 ^ 31 →
      (Builder.ofRecord r).build = some r := by
  intro r hlen hsz
  unfold Builder.build
  rw [if_pos hsz]
  rw [← hlen]
  rfl

/-- Witness for C10 at the record of the `record_size` test. -/
theorem claim_C10_witness :
    testRecord.length = ((Builder.ofRecord testRecord).size_in_bytes : Int)
      ∧ (Builder.ofRecord testRecord).size_in_bytes < 2 ^ 31
      ∧ (Builder.ofRecord testRecord).build = some testRecord :=
  ⟨rfl, by decide, claim_C10_builder_round_trip testRecord rfl (by decide)⟩

end Tansu
